import Mathlib

/-!
Verification development for the search algorithms of the repository
`FedeZ2008/tuia-prog3`:

* `tp-tsp/search.py` — local-search metaheuristics (`HillClimbing`,
  `HillClimbingReset`, `Tabu`), embedded below as fuel-indexed executable
  functions over an abstract optimization problem.
* `tp-pathfinding/src/pathfinder/search/ucs.py` — the uniform-cost graph
  search, embedded below over an abstract grid.

Python floats are modelled as integers (`ℤ`); the sentinel
`float('-inf')` used for an initial best value is modelled as
`Option ℤ` with `none` standing for negative infinity.  The mutable
instance fields of the Python classes are threaded explicitly as state.
Unbounded `while` loops are indexed by a fuel parameter; a run that
returns `some` corresponds to a Python run that terminates.
-/

namespace Prog3

/-- Modelled from the spec: the `OptProblem` capability of `tp-tsp/problem.py`,
which is not part of the analysed sources.  Per spec §6 it exposes an initial
state, an objective evaluator, a best-neighbour query (receiving the tabu
list, an ordered sequence of actions — entries may be Python `None`, hence
`Option A`), a state-transition function (its action argument may likewise be
`None`, since `Tabu.solve` passes `act_prev` which is initialized to `None`),
and a random-restart generator.  Randomness is modelled deterministically by
indexing `random_reset` with the number of previous calls. -/
structure OptProblem (S A : Type) where
  init : S
  obj_val : S → ℤ
  max_action : S → List (Option A) → A × ℤ
  result : S → Option A → S
  random_reset : ℕ → S

/-- Python comparison `value > best_value` where `best_value` starts at
`float('-inf')`: `none` is negative infinity, so every value beats it. -/
def val_lt (best : Option ℤ) (v : ℤ) : Bool :=
  match best with
  | none => true
  | some b => decide (b < v)

/-- Maximum of a list of integers, `none` on the empty list. -/
def listMax (l : List ℤ) : Option ℤ :=
  l.foldl (fun acc v =>
    match acc with
    | none => some v
    | some b => some (max b v)) none

/-- Result record of a `HillClimbing.solve` run: the fields `self.tour`,
`self.value`, `self.niters` set by the Python method (wall-clock time is not
modelled). -/
structure HCResult (S : Type) where
  tour : S
  value : ℤ
  niters : ℕ
  deriving Repr, DecidableEq

/-- The `while True` loop of `HillClimbing.solve` (search.py lines 61-79):
query `max_action`, stop when the successor value does not exceed the current
value, otherwise move to the successor and increment `self.niters`.
`niters` is the running instance counter, threaded explicitly. -/
def climb {S A : Type} (p : OptProblem S A) :
    ℕ → S → ℤ → ℕ → Option (HCResult S)
  | 0, _, _, _ => none
  | fuel + 1, actual, value, niters =>
    let t := p.max_action actual []
    if t.2 ≤ value then some ⟨actual, value, niters⟩
    else climb p fuel (p.result actual (some t.1)) t.2 (niters + 1)

/-- `HillClimbing.solve` (search.py lines 46-79).  `niters0` is the value of
the instance field `self.niters` on entry (0 on a freshly constructed
instance; the method never resets it). -/
def HillClimbing.solve {S A : Type} (p : OptProblem S A)
    (fuel niters0 : ℕ) : Option (HCResult S) :=
  climb p fuel p.init (p.obj_val p.init) niters0

/-- Result record of a `HillClimbingReset.solve` run: `self.tour` (Python
`None` when no trial ran, hence `Option S`), `self.value`
(`float('-inf')` modelled as `none`), `self.niters`. -/
structure HCRResult (S : Type) where
  tour : Option S
  value : Option ℤ
  niters : ℕ
  deriving Repr, DecidableEq

/-- The `for restart in range(max_restarts)` loop of `HillClimbingReset.solve`
(search.py lines 115-140): trial `0` starts from `problem.init`, later trials
from `problem.random_reset()`; each trial runs the hill-climbing loop, and the
best final value (strict improvement) is retained. -/
def hcrGo {S A : Type} (p : OptProblem S A) (fuel : ℕ) :
    ℕ → ℕ → Option S → Option ℤ → ℕ → Option (HCRResult S)
  | _, 0, best_tour, best_value, niters => some ⟨best_tour, best_value, niters⟩
  | r, rem + 1, best_tour, best_value, niters =>
    let start := if r = 0 then p.init else p.random_reset (r - 1)
    match climb p fuel start (p.obj_val start) niters with
    | none => none
    | some res =>
      if val_lt best_value res.value then
        hcrGo p fuel (r + 1) rem (some res.tour) (some res.value) res.niters
      else
        hcrGo p fuel (r + 1) rem best_tour best_value res.niters

/-- `HillClimbingReset.solve` (search.py lines 100-145), with
`max_restarts` from `__init__` and the incoming value of `self.niters`. -/
def HillClimbingReset.solve {S A : Type} (p : OptProblem S A)
    (max_restarts fuel niters0 : ℕ) : Option (HCRResult S) :=
  hcrGo p fuel 0 max_restarts none none niters0

/-- Python `dict` update in `Tabu.solve` (search.py lines 194-197): if the key
is absent set it to 0, then increment.  The dict is modelled as an
insertion-ordered association list. -/
def bump {S : Type} [DecidableEq S] (l : List (S × ℕ)) (s : S) :
    List (S × ℕ) :=
  if l.any (fun kv => decide (kv.1 = s)) then
    l.map (fun kv => if kv.1 = s then (kv.1, kv.2 + 1) else kv)
  else l ++ [(s, 1)]

/-- Python `min(self.frequency_memory, key=self.frequency_memory.get)`
(search.py line 200): the key with the smallest count, ties resolved in favour
of the earliest-inserted key.  `d` is returned on the empty dict (the source
only calls this on a non-empty dict). -/
def minByCount {S : Type} (l : List (S × ℕ)) (d : S) : S :=
  match l.foldl (fun acc kv =>
    match acc with
    | none => some kv
    | some best => if kv.2 < best.2 then some kv else acc) none with
  | none => d
  | some kv => kv.1

/-- The mutable state of one `Tabu.solve` run (search.py lines 150-231):
the loop locals `actual`, `value`, `best_tour`, `best_value`, `act_prev`
together with the instance fields `self.tabu_list`, `self.no_improve_count`,
`self.niters`, `self.frequency_memory` and `self.reinicio` (the restart
counter, here named `reinicio_count`).  Two instrumentation logs are carried
along and never influence control flow: `checkedValues` records the current
`value` each time the non-improving branch compares it against `best_value`,
and `resultCalls` records every `(state, action)` argument pair passed to
`problem.result`. -/
structure TabuState (S A : Type) where
  actual : S
  value : ℤ
  best_tour : Option S
  best_value : Option ℤ
  act_prev : Option A
  tabu_list : List (Option A)
  no_improve_count : ℕ
  niters : ℕ
  frequency_memory : List (S × ℕ)
  reinicio_count : ℕ
  checkedValues : List ℤ
  resultCalls : List (S × Option A)
  deriving Repr

/-- The tail of a `Tabu.solve` loop iteration once the diversification branch
was not taken (search.py lines 206-225), for the already-computed
`max_action` answer `t = (act, succ_val)`.  If `succ_val <= value`: append
`act_prev` to the tabu list, bump the stagnation and iteration counters,
update the best solution (resetting the stagnation counter) when the current
value beats the best, then move via `problem.result(actual, act_prev)` and
re-evaluate the objective.  Otherwise move to the successor via
`problem.result(actual, act)`, adopt `succ_val` and remember `act`. -/
def tabuMove {S A : Type} [DecidableEq S] (p : OptProblem S A)
    (st : TabuState S A) (t : A × ℤ) : TabuState S A :=
  if t.2 ≤ st.value then
    let st1 := { st with
      tabu_list := st.tabu_list ++ [st.act_prev],
      no_improve_count := st.no_improve_count + 1,
      niters := st.niters + 1,
      checkedValues := st.checkedValues ++ [st.value] }
    let st2 :=
      if val_lt st1.best_value st1.value then
        { st1 with
          best_tour := some st1.actual,
          best_value := some st1.value,
          no_improve_count := 0 }
      else st1
    let next := p.result st2.actual st2.act_prev
    { st2 with
      actual := next,
      value := p.obj_val next,
      resultCalls := st2.resultCalls ++ [(st2.actual, st2.act_prev)] }
  else
    let next := p.result st.actual (some t.1)
    { st with
      actual := next,
      value := t.2,
      act_prev := some t.1,
      niters := st.niters + 1,
      resultCalls := st.resultCalls ++ [(st.actual, some t.1)] }

/-- One iteration of the `while` loop body of `Tabu.solve` (search.py lines
188-225), assuming the loop guard `no_improve_count < no_improve_limit`
held.  First `max_action` is queried; then, while fewer than 10 restarts have
happened, the frequency memory is bumped for the current state and — if
additionally `no_improve_count < no_improve_limit - 1` — the search teleports
to the least-frequently seen state (`continue`); otherwise the iteration
proceeds with `tabuMove`. -/
def tabuStep {S A : Type} [DecidableEq S] (p : OptProblem S A)
    (limit : ℕ) (st : TabuState S A) : TabuState S A :=
  let t := p.max_action st.actual st.tabu_list
  if st.reinicio_count < 10 then
    let freq := bump st.frequency_memory st.actual
    if st.no_improve_count < limit - 1 then
      let next := minByCount freq st.actual
      { st with
        reinicio_count := st.reinicio_count + 1,
        frequency_memory := freq,
        actual := next,
        value := p.obj_val next,
        niters := st.niters + 1 }
    else tabuMove p { st with frequency_memory := freq } t
  else tabuMove p st t

/-- The guarded `while self.no_improve_count < self.no_improve_limit` loop of
`Tabu.solve`, fuel-indexed: `none` means the fuel ran out before the guard
failed. -/
def tabuLoop {S A : Type} [DecidableEq S] (p : OptProblem S A) (limit : ℕ) :
    ℕ → TabuState S A → Option (TabuState S A)
  | 0, st => if st.no_improve_count < limit then none else some st
  | fuel + 1, st =>
    if st.no_improve_count < limit then
      tabuLoop p limit fuel (tabuStep p limit st)
    else some st

/-- The state of a `Tabu.solve` run after `n` guarded loop iterations
(used to observe intermediate states of a run). -/
def tabuAfter {S A : Type} [DecidableEq S] (p : OptProblem S A) (limit : ℕ) :
    ℕ → TabuState S A → TabuState S A
  | 0, st => st
  | n + 1, st =>
    if st.no_improve_count < limit then
      tabuAfter p limit n (tabuStep p limit st)
    else st

/-- The state of a freshly constructed `Tabu` instance (search.py
`__init__`, lines 150-167) at the top of `solve` (lines 180-186): current
state `problem.init` with its objective value, no best solution yet
(`best_tour = None`, `best_value = float('-inf')`), `act_prev = None`, empty
tabu list, zero counters, empty frequency memory. -/
def Tabu.start {S A : Type} (p : OptProblem S A) : TabuState S A :=
  { actual := p.init
    value := p.obj_val p.init
    best_tour := none
    best_value := none
    act_prev := none
    tabu_list := []
    no_improve_count := 0
    niters := 0
    frequency_memory := []
    reinicio_count := 0
    checkedValues := []
    resultCalls := [] }

/-- `Tabu.solve` (search.py lines 169-231) on a freshly constructed instance
with `no_improve_limit = limit`: run the guarded loop from the initial state.
The returned final state carries the reported results: `self.tour` is its
`best_tour` field and `self.value` its `best_value` field. -/
def Tabu.solve {S A : Type} [DecidableEq S] (p : OptProblem S A)
    (limit fuel : ℕ) : Option (TabuState S A) :=
  tabuLoop p limit fuel (Tabu.start p)

/-- Search-tree node of the pathfinder (`models/node.py`, consumed by
`ucs.py`): a state, its accumulated cost, the parent node and the action that
produced it.  In `ucs.py` the `action` argument is set to the successor
state itself (line 61), so it has the state type. -/
inductive Node (S : Type) where
  | mk (state : S) (cost : ℤ) (parent : Option (Node S)) (action : Option S)

/-- State stored in a node. -/
def Node.state {S : Type} : Node S → S
  | ⟨s, _, _, _⟩ => s

/-- Accumulated cost stored in a node. -/
def Node.cost {S : Type} : Node S → ℤ
  | ⟨_, c, _, _⟩ => c

/-- Modelled from the spec: the grid capability consumed by
`UniformCostSearch.search` (`models/grid.py` is not part of the analysed
sources).  Per spec §6 it exposes a start state, a goal state, a neighbour
query returning a mapping from action label to neighbouring state (modelled
as an insertion-ordered association list), and the cost of entering a
state. -/
structure Grid (S : Type) where
  start : S
  «end» : S
  get_neighbours : S → List (String × S)
  get_cost : S → ℤ

/-- Terminal result of the graph search: `Solution` with the terminal node,
or `NoSolution`. -/
inductive SearchResult (S : Type) where
  | solution (node : Node S)
  | noSolution

/-- Full outcome of a `UniformCostSearch.search` run: the terminal result,
the final explored dictionary (as the insertion-ordered list of its keys —
states are appended exactly when first generated), plus two instrumentation
logs that never influence control flow: `pops` records the state of every
node extracted from the frontier (i.e. every expanded state, in order) and
`pushes` records every loop call of `frontier.add` as
`(priority argument, cost of the pushed node, its state)`. -/
structure UCSOutcome (S : Type) where
  result : SearchResult S
  explored : List S
  pops : List S
  pushes : List (ℤ × ℤ × S)

/-- Modelled from the spec: `PriorityQueueFrontier.pop`
(`models/frontier.py` is not part of the analysed sources).  Per spec §4.1
and §3 it removes and returns the entry of minimum priority, ties resolved by
insertion order; `none` on an empty frontier. -/
def popMin {S : Type} : List (ℤ × Node S) →
    Option ((ℤ × Node S) × List (ℤ × Node S))
  | [] => none
  | e :: rest =>
    match popMin rest with
    | none => some (e, [])
    | some (m, rest') =>
      if e.1 ≤ m.1 then some (e, rest) else some (m, e :: rest')

/-- States held by the nodes of a frontier, in frontier order. -/
def frontierStates {S : Type} (fr : List (ℤ × Node S)) : List S :=
  fr.map (fun e => e.2.state)

/-- Result of processing the successor list of one expanded node: either the
loop continues with updated frontier/explored/push-log, or a goal successor
was generated and the search returns. -/
inductive ExpandRes (S : Type) where
  | cont (frontier : List (ℤ × Node S)) (explored : List S)
      (pushes : List (ℤ × ℤ × S))
  | goal (node : Node S) (explored : List S) (pushes : List (ℤ × ℤ × S))

/-- The `for key, value in successors.items()` loop of
`UniformCostSearch.search` (ucs.py lines 50-74): for each successor state not
yet explored, build the child node with cost `node.cost +
grid.get_cost(new_state)`, mark the state explored, return at once if it is
the goal, and otherwise push the child with priority `node.cost` — the
parent's accumulated cost — exactly as `frontier.add(new_node, node.cost)`
does on line 74. -/
def ucsExpand {S : Type} [DecidableEq S] (g : Grid S) (node : Node S) :
    List S → List (ℤ × Node S) → List S → List (ℤ × ℤ × S) → ExpandRes S
  | [], frontier, explored, pushes => .cont frontier explored pushes
  | s :: rest, frontier, explored, pushes =>
    if s ∈ explored then ucsExpand g node rest frontier explored pushes
    else
      let new_node : Node S := ⟨s, node.cost + g.get_cost s, some node, some s⟩
      let explored' := explored ++ [s]
      if s = g.«end» then .goal new_node explored' pushes
      else
        ucsExpand g node rest (frontier ++ [(node.cost, new_node)]) explored'
          (pushes ++ [(node.cost, new_node.cost, s)])

/-- The `while True` loop of `UniformCostSearch.search` (ucs.py lines
37-74), fuel-indexed: return `NoSolution` when the frontier is empty,
otherwise pop the minimum-priority node, record the expansion, and process
its successors. -/
def ucsLoop {S : Type} [DecidableEq S] (g : Grid S) :
    ℕ → List (ℤ × Node S) → List S → List S → List (ℤ × ℤ × S) →
    Option (UCSOutcome S)
  | 0, _, _, _, _ => none
  | fuel + 1, frontier, explored, pops, pushes =>
    match popMin frontier with
    | none => some ⟨.noSolution, explored, pops, pushes⟩
    | some ((_, node), frontier') =>
      match ucsExpand g node ((g.get_neighbours node.state).map Prod.snd)
          frontier' explored pushes with
      | .goal n explored' pushes' =>
        some ⟨.solution n, explored', pops ++ [node.state], pushes'⟩
      | .cont frontier'' explored' pushes' =>
        ucsLoop g fuel frontier'' explored' (pops ++ [node.state]) pushes'

/-- `UniformCostSearch.search` (ucs.py lines 8-74): build the root node at
the start state with cost 0, mark the start explored, return at once if the
start is the goal, otherwise initialize the frontier with the root (the
source calls `frontier.add(node)` without a priority; the default priority 0
is modelled from the spec since `models/frontier.py` is not in the analysed
sources) and run the loop. -/
def UniformCostSearch.search {S : Type} [DecidableEq S] (g : Grid S)
    (fuel : ℕ) : Option (UCSOutcome S) :=
  let node : Node S := ⟨g.start, 0, none, none⟩
  let explored := [g.start]
  if g.start = g.«end» then some ⟨.solution node, explored, [], []⟩
  else ucsLoop g fuel [((0 : ℤ), node)] explored [] []

/-- Concrete optimization problem (states and actions are naturals): every
state has objective value 0 and `max_action` always answers `(1, 0)`;
`result` stays put.  Used to exercise the unbounded growth of the tabu
list. -/
def exP2 : OptProblem ℕ ℕ :=
  { init := 0
    obj_val := fun _ => 0
    max_action := fun _ _ => (1, 0)
    result := fun s _ => s
    random_reset := fun _ => 0 }

/-- Concrete optimization problem on which `Tabu.solve` with
`no_improve_limit = 1` reaches, after two iterations, a state whose best
non-tabu move (as answered by `max_action`) is the action 7 that is already
on the tabu list, with a value (100) exceeding the best value found so far
(10). -/
def exP3 : OptProblem ℕ ℕ :=
  { init := 0
    obj_val := fun s =>
      if s = 0 then 0 else if s = 1 then 10 else if s = 2 then 0
      else if s = 3 then 100 else 20
    max_action := fun s _ =>
      if s = 0 then (7, 10) else if s = 1 then (8, 5)
      else if s = 2 then (7, 100) else (9, 20)
    result := fun s _ => s + 1
    random_reset := fun _ => 0 }

/-- Concrete optimization problem whose `result` function distinguishes a
`None` action (yielding state 100) from a real action `a` (yielding
`200 + a`): on its first iteration `Tabu.solve` with `no_improve_limit = 1`
takes the non-improving branch with `act_prev = None`. -/
def exP4 : OptProblem ℕ ℕ :=
  { init := 0
    obj_val := fun s => if s = 0 then 0 else -1
    max_action := fun _ _ => (7, 0)
    result := fun _ oa =>
      match oa with
      | none => 100
      | some a => 200 + a
    random_reset := fun _ => 0 }

/-- Concrete optimization problem on which `Tabu.solve` with
`no_improve_limit = 1` ends its final non-improving iteration by moving to
state 2 with objective value 100 — observed as the current value at loop
exit — while the returned best value is 5. -/
def exP5 : OptProblem ℕ ℕ :=
  { init := 0
    obj_val := fun s => if s = 0 then 5 else if s = 1 then 3 else 100
    max_action := fun s _ =>
      if s = 0 then (1, 5) else if s = 1 then (1, 3) else (1, 0)
    result := fun s _ => s + 1
    random_reset := fun _ => 0 }

/-- Concrete optimization problem on which a `HillClimbing.solve` run
performs exactly one improving move (from state 0 with value 0 to state 1
with value 1) and then stops. -/
def exQ6 : OptProblem ℕ ℕ :=
  { init := 0
    obj_val := fun s => if s = 0 then 0 else 1
    max_action := fun _ _ => (5, 1)
    result := fun s _ => s + 1
    random_reset := fun _ => 0 }

/-- Concrete optimization problem on which every solve run stops at once:
every value is 0 and the best move never improves. -/
def exQ8 : OptProblem ℕ ℕ :=
  { init := 0
    obj_val := fun _ => 0
    max_action := fun _ _ => (0, 0)
    result := fun s _ => s
    random_reset := fun _ => 0 }

/-- Concrete optimization problem on which `Tabu.solve` with
`no_improve_limit = 1` immediately takes the non-improving branch with the
initial `act_prev = None`. -/
def exP10 : OptProblem ℕ ℕ :=
  { init := 0
    obj_val := fun _ => 0
    max_action := fun _ _ => (3, 0)
    result := fun s _ => s + 1
    random_reset := fun _ => 0 }

/-- Concrete grid: the chain 0 → 1 → 2 → 3 with unit entry costs, start 0,
goal 3.  The successor 1 of the root has accumulated cost 1 but is pushed
with priority 0 (the parent's cost). -/
def exG1 : Grid ℕ :=
  { start := 0
    «end» := 3
    get_neighbours := fun s =>
      if s = 0 then [("d", 1)] else if s = 1 then [("d", 2)]
      else if s = 2 then [("d", 3)] else []
    get_cost := fun _ => 1 }

/-- Concrete grid whose start is its goal. -/
def exG0 : Grid ℕ :=
  { start := 0
    «end» := 0
    get_neighbours := fun _ => []
    get_cost := fun _ => 1 }

/-! Helper lemmas about the hill-climbing loop. -/

/-- Threading a nonzero incoming iteration counter through the climbing loop
shifts the reported counter and nothing else. -/
theorem climb_shift {S A : Type} (p : OptProblem S A) :
    ∀ (fuel : ℕ) (actual : S) (value : ℤ) (n : ℕ),
    climb p fuel actual value n =
      (climb p fuel actual value 0).map
        (fun r => { r with niters := n + r.niters }) := by
  intro fuel
  induction fuel with
  | zero => intro actual value n; rfl
  | succ fuel ih =>
    intro actual value n
    rw [climb, climb]
    by_cases h : (p.max_action actual []).2 ≤ value
    · simp [h]
    · simp only [h, if_false, Option.map]
      rw [ih _ _ (n + 1), ih _ _ (0 + 1)]
      cases climb p fuel (p.result actual (some (p.max_action actual []).1))
          (p.max_action actual []).2 0 with
      | none => rfl
      | some r => simp [Nat.add_assoc]

/-- The climbing loop is monotone in fuel: a run that terminates keeps its
result when given more fuel. -/
theorem climb_mono {S A : Type} (p : OptProblem S A) :
    ∀ (f f' : ℕ), f ≤ f' → ∀ (a : S) (v : ℤ) (n : ℕ) (r : HCResult S),
    climb p f a v n = some r → climb p f' a v n = some r := by
  intro f
  induction f with
  | zero => intro f' _ a v n r h; simp [climb] at h
  | succ f ih =>
    intro f' hle a v n r h
    obtain ⟨f'', rfl⟩ : ∃ f'', f' = f'' + 1 := ⟨f' - 1, by omega⟩
    rw [climb] at h ⊢
    by_cases hc : (p.max_action a []).2 ≤ v
    · rw [if_pos hc] at h ⊢; exact h
    · rw [if_neg hc] at h ⊢
      exact ih f'' (by omega) _ _ _ _ h

/-- The climbing loop is deterministic across fuel values. -/
theorem climb_det {S A : Type} (p : OptProblem S A) (f f' : ℕ) (a : S)
    (v : ℤ) (n : ℕ) (r r' : HCResult S) (h : climb p f a v n = some r)
    (h' : climb p f' a v n = some r') : r = r' := by
  rcases Nat.le_total f f' with hle | hle
  · have := climb_mono p f f' hle a v n r h
    rw [this] at h'; exact Option.some.inj h'
  · have := climb_mono p f' f hle a v n r' h'
    rw [this] at h; exact (Option.some.inj h).symm

/-- Once the running best value of the restart loop is a proper value, the
final reported best value is at least it. -/
theorem hcrGo_value_mono {S A : Type} (p : OptProblem S A) (fuel : ℕ) :
    ∀ (rem r : ℕ) (bt : Option S) (b : ℤ) (n : ℕ) (out : HCRResult S),
    hcrGo p fuel r rem bt (some b) n = some out →
    ∃ b', out.value = some b' ∧ b ≤ b' := by
  intro rem
  induction rem with
  | zero =>
    intro r bt b n out h
    rw [hcrGo] at h
    cases h
    exact ⟨b, rfl, le_refl b⟩
  | succ rem ih =>
    intro r bt b n out h
    rw [hcrGo] at h
    split at h
    · exact Option.noConfusion h
    · rename_i res hclimb
      split at h
      · rename_i hlt
        obtain ⟨b', hb', hle⟩ := ih (r + 1) (some res.tour) res.value
          res.niters out h
        have hbv : b < res.value := by simpa [val_lt] using hlt
        exact ⟨b', hb', le_trans (le_of_lt hbv) hle⟩
      · exact ih (r + 1) bt b res.niters out h

/-! Claim theorems for the hill-climbing strategies. -/

/-- C9: if `HillClimbingReset` is constructed with `max_restarts = 0`, solve
performs no hill-climbing trial at all and returns `tour = None` and
`value` = negative infinity (modelled as `none`), with an iteration count of
zero (on a freshly constructed instance). -/
theorem hcr_c9_zero_restarts {S A : Type} (p : OptProblem S A) (fuel : ℕ) :
    HillClimbingReset.solve p 0 fuel 0 =
      some ⟨(none : Option S), (none : Option ℤ), 0⟩ := rfl

/-- C8 (confirmed): for every optimization problem and every
`max_restarts ≥ 1`, if both the restart run and a single hill-climbing run
from `problem.init` terminate, the best value reported by
`HillClimbingReset.solve` is at least the value the single
`HillClimbing.solve` run reports. -/
theorem hcr_c8_restart_monotone {S A : Type} (p : OptProblem S A)
    (R fuelA fuelB : ℕ) (out : HCRResult S) (res : HCResult S)
    (hR : 1 ≤ R)
    (h1 : HillClimbingReset.solve p R fuelA 0 = some out)
    (h2 : HillClimbing.solve p fuelB 0 = some res) :
    ∃ b, out.value = some b ∧ res.value ≤ b := by
  obtain ⟨R', rfl⟩ : ∃ R', R = R' + 1 := ⟨R - 1, by omega⟩
  unfold HillClimbingReset.solve at h1
  rw [hcrGo] at h1
  have h00 : (if (0 : ℕ) = 0 then p.init else p.random_reset (0 - 1)) = p.init :=
    if_pos rfl
  rw [h00] at h1
  unfold HillClimbing.solve at h2
  split at h1
  · exact Option.noConfusion h1
  · rename_i r0 hclimb
    split at h1
    · obtain ⟨b, hb, hle⟩ := hcrGo_value_mono p fuelA R' 1 (some r0.tour)
        r0.value r0.niters out h1
      have : res = r0 := climb_det p fuelB fuelA p.init (p.obj_val p.init) 0
        res r0 h2 hclimb
      exact ⟨b, hb, this ▸ hle⟩
    · rename_i hval
      exact absurd rfl hval

/-- Witness for C8 at a concrete problem: both runs terminate with fuel 1 and
the restart run's best value (0) is at least the single run's value (0). -/
theorem hcr_c8_witness :
    ∃ b, (HCRResult.mk (some 0) (some 0) 0 : HCRResult ℕ).value = some b ∧
      (HCResult.mk 0 0 0 : HCResult ℕ).value ≤ b :=
  hcr_c8_restart_monotone exQ8 1 1 1 ⟨some 0, some 0, 0⟩ ⟨0, 0, 0⟩
    (by decide) (by decide) (by decide)

/-- C6 (counterexample): the iteration count reported by a solve call is not
scoped to that call.  On `exQ6` a fresh `HillClimbing` instance reports 1
iteration; a second `solve` on the same instance (incoming `self.niters = 1`)
reports 2, not 1: the counter accumulates across runs. -/
theorem hc_c6_counterexample :
    HillClimbing.solve exQ6 5 0 = some ⟨1, 1, 1⟩ ∧
    HillClimbing.solve exQ6 5 1 = some ⟨1, 1, 2⟩ ∧ (2 : ℕ) ≠ 1 := by
  refine ⟨by decide, by decide, by decide⟩

/-- C6 (amended): the iteration count reported by a `HillClimbing.solve`
invocation equals the count accumulated by earlier solve calls on the same
instance plus the number of iterations performed by this invocation alone —
`self.niters` is never reset, so the metric is instance-accumulated rather
than run-scoped. -/
theorem hc_c6_amended {S A : Type} (p : OptProblem S A) (fuel n0 : ℕ)
    (res : HCResult S) (h : HillClimbing.solve p fuel 0 = some res) :
    HillClimbing.solve p fuel n0 = some { res with niters := n0 + res.niters } := by
  unfold HillClimbing.solve at h ⊢
  rw [climb_shift p fuel _ _ n0, h]
  rfl

/-- Witness for the amended C6: on `exQ6`, a first run reports 1 iteration
and a second run on the same instance reports `1 + 1`. -/
theorem hc_c6_witness :
    HillClimbing.solve exQ6 5 1 = some ⟨1, 1, 1 + 1⟩ :=
  hc_c6_amended exQ6 5 1 ⟨1, 1, 1⟩ (by decide)

/-! Helper lemmas about the tabu-search loop. -/

/-- Appending an element to a list takes the running maximum with it. -/
theorem listMax_append (l : List ℤ) (v : ℤ) :
    listMax (l ++ [v]) =
      some (match listMax l with | none => v | some b => max b v) := by
  unfold listMax
  rw [List.foldl_append]
  cases List.foldl (fun acc v =>
    match acc with
    | none => some v
    | some b => some (max b v)) none l with
  | none => rfl
  | some b => rfl

/-- The best-value update of the non-improving branch computes exactly the
running maximum of the checked values. -/
theorem val_lt_listMax (l : List ℤ) (v : ℤ) :
    (if val_lt (listMax l) v then some v else listMax l) =
      listMax (l ++ [v]) := by
  rw [listMax_append]
  cases hb : listMax l with
  | none => simp [val_lt]
  | some b =>
    simp only [val_lt]
    by_cases hlt : b < v
    · simp [hlt, max_eq_right (le_of_lt hlt)]
    · simp [hlt, max_eq_left (not_lt.mp hlt)]

/-- `tabuMove` preserves the relationship between the running best value and
the log of values it was checked against. -/
theorem tabuMove_best {S A : Type} [DecidableEq S] (p : OptProblem S A)
    (st : TabuState S A) (t : A × ℤ)
    (h : st.best_value = listMax st.checkedValues) :
    (tabuMove p st t).best_value = listMax (tabuMove p st t).checkedValues := by
  unfold tabuMove
  by_cases hc : t.2 ≤ st.value
  · rw [if_pos hc]
    by_cases hb : val_lt st.best_value st.value
    · simp only [hb, if_true]
      have := val_lt_listMax st.checkedValues st.value
      rw [← h, if_pos hb] at this
      simpa using this
    · simp only [hb, if_false]
      have := val_lt_listMax st.checkedValues st.value
      rw [← h, if_neg (by simpa using hb)] at this
      simpa [h] using this
  · rw [if_neg hc]
    exact h

/-- `tabuMove` keeps the stagnation counter within the loop bound. -/
theorem tabuMove_count {S A : Type} [DecidableEq S] (p : OptProblem S A)
    (limit : ℕ) (st : TabuState S A) (t : A × ℤ)
    (h : st.no_improve_count < limit) :
    (tabuMove p st t).no_improve_count ≤ limit := by
  unfold tabuMove
  by_cases hc : t.2 ≤ st.value
  · rw [if_pos hc]
    by_cases hb : val_lt st.best_value st.value
    · simp [hb]
    · simp [hb]; omega
  · rw [if_neg hc]
    simp; omega

/-- `tabuMove` only appends to the tabu list. -/
theorem tabuMove_append {S A : Type} [DecidableEq S] (p : OptProblem S A)
    (st : TabuState S A) (t : A × ℤ) :
    ∃ t2, (tabuMove p st t).tabu_list = st.tabu_list ++ t2 := by
  unfold tabuMove
  by_cases hc : t.2 ≤ st.value
  · rw [if_pos hc]
    by_cases hb : val_lt st.best_value st.value
    · exact ⟨[st.act_prev], by simp [hb]⟩
    · exact ⟨[st.act_prev], by simp [hb]⟩
  · exact ⟨[], by rw [if_neg hc]; simp⟩

/-- One guarded loop iteration preserves the best-value/checked-values
relationship. -/
theorem tabuStep_best {S A : Type} [DecidableEq S] (p : OptProblem S A)
    (limit : ℕ) (st : TabuState S A)
    (h : st.best_value = listMax st.checkedValues) :
    (tabuStep p limit st).best_value =
      listMax (tabuStep p limit st).checkedValues := by
  unfold tabuStep
  by_cases h10 : st.reinicio_count < 10
  · rw [if_pos h10]
    by_cases hdiv : st.no_improve_count < limit - 1
    · rw [if_pos hdiv]; exact h
    · rw [if_neg hdiv]; exact tabuMove_best p _ _ h
  · rw [if_neg h10]; exact tabuMove_best p _ _ h

/-- One guarded loop iteration keeps the stagnation counter within the loop
bound. -/
theorem tabuStep_count {S A : Type} [DecidableEq S] (p : OptProblem S A)
    (limit : ℕ) (st : TabuState S A) (h : st.no_improve_count < limit) :
    (tabuStep p limit st).no_improve_count ≤ limit := by
  unfold tabuStep
  by_cases h10 : st.reinicio_count < 10
  · rw [if_pos h10]
    by_cases hdiv : st.no_improve_count < limit - 1
    · rw [if_pos hdiv]; exact le_of_lt h
    · rw [if_neg hdiv]; exact tabuMove_count p limit _ _ h
  · rw [if_neg h10]; exact tabuMove_count p limit _ _ h

/-- One guarded loop iteration only appends to the tabu list. -/
theorem tabuStep_append {S A : Type} [DecidableEq S] (p : OptProblem S A)
    (limit : ℕ) (st : TabuState S A) :
    ∃ t2, (tabuStep p limit st).tabu_list = st.tabu_list ++ t2 := by
  unfold tabuStep
  by_cases h10 : st.reinicio_count < 10
  · rw [if_pos h10]
    by_cases hdiv : st.no_improve_count < limit - 1
    · exact ⟨[], by rw [if_pos hdiv]; simp⟩
    · rw [if_neg hdiv]; exact tabuMove_append p _ _
  · rw [if_neg h10]; exact tabuMove_append p _ _

/-- When the guarded loop terminates, the stagnation counter has reached the
limit exactly and the reported best value is the maximum of the values it was
checked against. -/
theorem tabuLoop_spec {S A : Type} [DecidableEq S] (p : OptProblem S A)
    (limit : ℕ) :
    ∀ (fuel : ℕ) (st st' : TabuState S A),
    st.no_improve_count ≤ limit →
    st.best_value = listMax st.checkedValues →
    tabuLoop p limit fuel st = some st' →
    st'.no_improve_count = limit ∧
      st'.best_value = listMax st'.checkedValues := by
  intro fuel
  induction fuel with
  | zero =>
    intro st st' hle hbest h
    rw [tabuLoop] at h
    by_cases hg : st.no_improve_count < limit
    · rw [if_pos hg] at h; exact Option.noConfusion h
    · rw [if_neg hg] at h
      cases h
      exact ⟨by omega, hbest⟩
  | succ fuel ih =>
    intro st st' hle hbest h
    rw [tabuLoop] at h
    by_cases hg : st.no_improve_count < limit
    · rw [if_pos hg] at h
      exact ih (tabuStep p limit st) st' (tabuStep_count p limit st hg)
        (tabuStep_best p limit st hbest) h
    · rw [if_neg hg] at h
      cases h
      exact ⟨by omega, hbest⟩

/-! Claim theorems for the tabu search. -/

/-- C2 (code evaluated at the failing input): on the constant problem `exP2`
with `no_improve_limit = 5`, a fresh `Tabu.solve` run terminates with a tabu
list of length 6 — the code defines no maximum tabu-list length and never
evicts, so the list grows with every non-improving iteration. -/
theorem tabu_c2_unbounded :
    (Tabu.solve exP2 5 25).map (fun st => st.tabu_list.length) = some 6 := by
  decide

/-- C3 (counterexample to the aspiration criterion): after two iterations of
`Tabu.solve` on `exP3` with `no_improve_limit = 1` the tabu list is
`[some 7]`, `max_action` chooses exactly the tabu action 7 with value 100,
and 100 exceeds the best value found so far (10) — yet after the next
iteration the action is still on the tabu list: it is never removed. -/
theorem tabu_c3_counterexample :
    (tabuAfter exP3 1 2 (Tabu.start exP3)).tabu_list = [some 7] ∧
    exP3.max_action (tabuAfter exP3 1 2 (Tabu.start exP3)).actual
      (tabuAfter exP3 1 2 (Tabu.start exP3)).tabu_list = (7, 100) ∧
    val_lt (tabuAfter exP3 1 2 (Tabu.start exP3)).best_value 100 = true ∧
    some 7 ∈ (tabuAfter exP3 1 3 (Tabu.start exP3)).tabu_list := by
  refine ⟨by decide, by decide, by decide, by decide⟩

/-- C3 (amended): `Tabu.solve` implements no aspiration criterion at all —
at every step of a run the previous tabu list is an initial segment of the
new one (entries are only ever appended, never removed), in particular a
chosen action that is on the tabu list with a value exceeding the best value
found so far is not removed. -/
theorem tabu_c3_no_removal {S A : Type} [DecidableEq S] (p : OptProblem S A)
    (limit : ℕ) (st : TabuState S A) (n : ℕ) :
    ∃ t2, (tabuAfter p limit n st).tabu_list = st.tabu_list ++ t2 := by
  induction n generalizing st with
  | zero => exact ⟨[], by simp [tabuAfter]⟩
  | succ n ih =>
    rw [tabuAfter]
    by_cases hg : st.no_improve_count < limit
    · rw [if_pos hg]
      obtain ⟨t2, h2⟩ := ih (tabuStep p limit st)
      obtain ⟨t1, h1⟩ := tabuStep_append p limit st
      exact ⟨t1 ++ t2, by rw [h2, h1, List.append_assoc]⟩
    · rw [if_neg hg]
      exact ⟨[], by simp⟩

/-- C4 (counterexample): on `exP4` with `no_improve_limit = 1` the first
iteration is non-improving (candidate value 0 does not exceed the current
value 0), yet the run does not transition to the candidate successor
(`result(0, 7) = 207`) — it transitions to `result(0, None) = 100` via
`act_prev`, the adopted value is the objective of that state (-1), not the
candidate value 0, and the stagnation counter ends the iteration at 0 (it
was incremented and then reset by the best-value update), not 1. -/
theorem tabu_c4_counterexample :
    (tabuAfter exP4 1 1 (Tabu.start exP4)).actual = 100 ∧
    exP4.result 0 (some 7) = 207 ∧
    (tabuAfter exP4 1 1 (Tabu.start exP4)).actual ≠ exP4.result 0 (some 7) ∧
    (tabuAfter exP4 1 1 (Tabu.start exP4)).value = -1 ∧
    (exP4.max_action 0 []).2 = 0 ∧
    (tabuAfter exP4 1 1 (Tabu.start exP4)).value ≠ (exP4.max_action 0 []).2 ∧
    (tabuAfter exP4 1 1 (Tabu.start exP4)).no_improve_count = 0 := by
  refine ⟨by decide, by decide, by decide, by decide, by decide, by decide,
    by decide⟩

/-- C4 (amended): in every iteration of `Tabu.solve` that reaches the
local-optimum test (i.e. is not preempted by the diversification branch)
with a candidate value that does not strictly improve on the current value,
the code appends the previously stored action `act_prev` to the tabu list,
increments the iteration count, increments the stagnation counter — but
resets it to 0 when the pre-move current value is a new best — and
transitions to the state obtained by applying `act_prev` (not the candidate
action), adopting that state's objective value. -/
theorem tabu_c4_amended {S A : Type} [DecidableEq S] (p : OptProblem S A)
    (limit : ℕ) (st : TabuState S A)
    (hdiv : ¬(st.reinicio_count < 10 ∧ st.no_improve_count < limit - 1))
    (hle : (p.max_action st.actual st.tabu_list).2 ≤ st.value) :
    (tabuStep p limit st).actual = p.result st.actual st.act_prev ∧
    (tabuStep p limit st).value =
      p.obj_val (p.result st.actual st.act_prev) ∧
    (tabuStep p limit st).tabu_list = st.tabu_list ++ [st.act_prev] ∧
    (tabuStep p limit st).niters = st.niters + 1 ∧
    (tabuStep p limit st).no_improve_count =
      (if val_lt st.best_value st.value then 0
       else st.no_improve_count + 1) := by
  unfold tabuStep tabuMove
  by_cases h10 : st.reinicio_count < 10
  · have hnd : ¬ st.no_improve_count < limit - 1 := fun hh => hdiv ⟨h10, hh⟩
    rw [if_pos h10, if_neg hnd, if_pos hle]
    by_cases hb : val_lt st.best_value st.value
    · simp [hb]
    · simp [hb]
  · rw [if_neg h10, if_pos hle]
    by_cases hb : val_lt st.best_value st.value
    · simp [hb]
    · simp [hb]

/-- Witness for the amended C4 at the initial state of a run on `exP4` with
`no_improve_limit = 1`: the hypotheses hold there and the five conclusions
follow. -/
theorem tabu_c4_witness :
    (tabuStep exP4 1 (Tabu.start exP4)).actual =
      exP4.result (Tabu.start exP4).actual (Tabu.start exP4).act_prev ∧
    (tabuStep exP4 1 (Tabu.start exP4)).value =
      exP4.obj_val (exP4.result (Tabu.start exP4).actual
        (Tabu.start exP4).act_prev) ∧
    (tabuStep exP4 1 (Tabu.start exP4)).tabu_list =
      (Tabu.start exP4).tabu_list ++ [(Tabu.start exP4).act_prev] ∧
    (tabuStep exP4 1 (Tabu.start exP4)).niters =
      (Tabu.start exP4).niters + 1 ∧
    (tabuStep exP4 1 (Tabu.start exP4)).no_improve_count =
      (if val_lt (Tabu.start exP4).best_value (Tabu.start exP4).value then 0
       else (Tabu.start exP4).no_improve_count + 1) :=
  tabu_c4_amended exP4 1 (Tabu.start exP4) (by decide) (by decide)

/-- C5 (counterexample): on `exP5` with `no_improve_limit = 1` the run
terminates with best value 5 reported, while the current value observed at
loop exit — computed by the run itself as the objective of the state reached
by the final `act_prev` move — is 100: the returned value is not the maximum
objective value observed during the run. -/
theorem tabu_c5_counterexample :
    (Tabu.solve exP5 1 20).map (fun st => (st.best_value, st.value)) =
      some (some 5, 100) ∧ ¬((100 : ℤ) ≤ 5) := by
  refine ⟨by decide, by decide⟩

/-- C5 (amended): `Tabu.solve` terminates exactly when `no_improve_count`
reaches `no_improve_limit`, and the returned value is the maximum of the
current values at the non-improving iterations (the values the best-value
update was checked against) — which need not be the maximum objective value
observed at any point during the run. -/
theorem tabu_c5_amended {S A : Type} [DecidableEq S] (p : OptProblem S A)
    (limit fuel : ℕ) (st' : TabuState S A)
    (h : Tabu.solve p limit fuel = some st') :
    st'.no_improve_count = limit ∧
      st'.best_value = listMax st'.checkedValues :=
  tabuLoop_spec p limit fuel (Tabu.start p) st' (Nat.zero_le limit) rfl h

/-- Witness for the amended C5: a run on `exQ8` with `no_improve_limit = 0`
terminates immediately at its initial state, whose stagnation counter equals
the limit 0 and whose best value is the maximum of the empty check log. -/
theorem tabu_c5_witness :
    (Tabu.start exQ8 : TabuState ℕ ℕ).no_improve_count = 0 ∧
      (Tabu.start exQ8 : TabuState ℕ ℕ).best_value =
        listMax (Tabu.start exQ8 : TabuState ℕ ℕ).checkedValues :=
  tabu_c5_amended exQ8 0 1 (Tabu.start exQ8) rfl

/-- C10 (confirmed): there is an optimization problem (`exP10`, on which the
candidate value never exceeds the current value) for which `Tabu.solve`
appends `None` to the tabu list and invokes `problem.result` with `None` as
the action: the run's tabu list is `[None, None]` and its log of
`problem.result` calls is `[(0, None), (1, None)]`. -/
theorem tabu_c10_none_action :
    (Tabu.solve exP10 1 10).map (fun st => (st.tabu_list, st.resultCalls)) =
      some ([none, none], [(0, none), (1, none)]) := by
  decide

/-! Helper lemmas about the uniform-cost search loop. -/

/-- Appending a fresh element to a duplicate-free list keeps it
duplicate-free. -/
theorem nodup_append_singleton {α : Type} {l : List α} {a : α}
    (h : l.Nodup) (ha : a ∉ l) : (l ++ [a]).Nodup := by
  rw [List.nodup_append]
  refine ⟨h, List.nodup_singleton a, fun x hx hx2 => ?_⟩
  rw [List.mem_singleton] at hx2
  exact ha (hx2 ▸ hx)

/-- The states of an extended frontier. -/
theorem frontierStates_append {S : Type} (fr : List (ℤ × Node S))
    (e : ℤ × Node S) :
    frontierStates (fr ++ [e]) = frontierStates fr ++ [e.2.state] := by
  simp [frontierStates]

/-- A frontier on which `popMin` answers `none` is empty. -/
theorem popMin_none {S : Type} :
    ∀ (l : List (ℤ × Node S)), popMin l = none → l = [] := by
  intro l h
  cases l with
  | nil => rfl
  | cons e rest =>
    rw [popMin] at h
    split at h
    · exact Option.noConfusion h
    · split at h <;> exact Option.noConfusion h

/-- `popMin` removes exactly one occurrence: the input frontier is a
permutation of the returned entry consed onto the returned rest. -/
theorem popMin_perm {S : Type} :
    ∀ (l : List (ℤ × Node S)) (m : ℤ × Node S) (l' : List (ℤ × Node S)),
    popMin l = some (m, l') → l.Perm (m :: l') := by
  intro l
  induction l with
  | nil => intro m l' h; exact Option.noConfusion h
  | cons e rest ih =>
    intro m l' h
    cases hr : popMin rest with
    | none =>
      simp only [popMin, hr, Option.some.injEq, Prod.mk.injEq] at h
      obtain ⟨rfl, rfl⟩ := h
      have hrest : rest = [] := popMin_none rest hr
      subst hrest
      exact List.Perm.refl _
    | some p =>
      obtain ⟨m', rest'⟩ := p
      simp only [popMin, hr] at h
      by_cases hle : e.1 ≤ m'.1
      · rw [if_pos hle] at h
        simp only [Option.some.injEq, Prod.mk.injEq] at h
        obtain ⟨rfl, rfl⟩ := h
        exact List.Perm.refl _
      · rw [if_neg hle] at h
        simp only [Option.some.injEq, Prod.mk.injEq] at h
        obtain ⟨rfl, rfl⟩ := h
        exact (List.Perm.cons e (ih m' rest' hr)).trans
          (List.Perm.swap m' e rest')

/-- Invariant preservation through the successor-processing loop: if the
already-popped states together with the frontier states are duplicate-free,
the explored list is duplicate-free, and every frontier state and popped
state is explored, the same holds after processing a successor list, and on
an early goal return the final explored list is duplicate-free. -/
theorem ucsExpand_inv {S : Type} [DecidableEq S] (g : Grid S) (node : Node S)
    (po : List S) :
    ∀ (succs : List S) (fr : List (ℤ × Node S)) (ex : List S)
      (pu : List (ℤ × ℤ × S)),
    (po ++ frontierStates fr).Nodup → ex.Nodup →
    (∀ s ∈ frontierStates fr, s ∈ ex) → (∀ s ∈ po, s ∈ ex) →
    (match ucsExpand g node succs fr ex pu with
     | .cont fr' ex' _ =>
       (po ++ frontierStates fr').Nodup ∧ ex'.Nodup ∧
       (∀ s ∈ frontierStates fr', s ∈ ex') ∧ (∀ s ∈ po, s ∈ ex')
     | .goal _ ex' _ => ex'.Nodup) := by
  intro succs
  induction succs with
  | nil =>
    intro fr ex pu h1 h2 h3 h4
    exact ⟨h1, h2, h3, h4⟩
  | cons s rest ih =>
    intro fr ex pu h1 h2 h3 h4
    rw [ucsExpand]
    by_cases hmem : s ∈ ex
    · rw [if_pos hmem]
      exact ih fr ex pu h1 h2 h3 h4
    · rw [if_neg hmem]
      by_cases hgoal : s = g.«end»
      · rw [if_pos hgoal]
        exact nodup_append_singleton h2 hmem
      · rw [if_neg hgoal]
        have hs_ex : s ∉ po ++ frontierStates fr := fun hmem' => by
          rcases List.mem_append.mp hmem' with hpo | hfr
          · exact hmem (h4 s hpo)
          · exact hmem (h3 s hfr)
        have h1' : (po ++ frontierStates (fr ++
            [(node.cost, (⟨s, node.cost + g.get_cost s, some node, some s⟩ :
              Node S))])).Nodup := by
          rw [frontierStates_append, ← List.append_assoc]
          exact nodup_append_singleton h1 hs_ex
        have h2' : (ex ++ [s]).Nodup := nodup_append_singleton h2 hmem
        have h3' : ∀ x ∈ frontierStates (fr ++
            [(node.cost, (⟨s, node.cost + g.get_cost s, some node, some s⟩ :
              Node S))]), x ∈ ex ++ [s] := by
          intro x hx
          rw [frontierStates_append] at hx
          rcases List.mem_append.mp hx with hx | hx
          · exact List.mem_append_left _ (h3 x hx)
          · rw [List.mem_singleton] at hx
            rw [hx]
            exact List.mem_append_right _ (List.mem_singleton.mpr rfl)
        have h4' : ∀ x ∈ po, x ∈ ex ++ [s] := fun x hx =>
          List.mem_append_left _ (h4 x hx)
        exact ih _ _ _ h1' h2' h3' h4'

/-- Invariant preservation through the whole search loop: under the same
invariants, a terminating run has duplicate-free expansion and explored
logs. -/
theorem ucsLoop_inv {S : Type} [DecidableEq S] (g : Grid S) :
    ∀ (fuel : ℕ) (fr : List (ℤ × Node S)) (ex po : List S)
      (pu : List (ℤ × ℤ × S)) (out : UCSOutcome S),
    (po ++ frontierStates fr).Nodup → ex.Nodup →
    (∀ s ∈ frontierStates fr, s ∈ ex) → (∀ s ∈ po, s ∈ ex) →
    ucsLoop g fuel fr ex po pu = some out →
    out.pops.Nodup ∧ out.explored.Nodup := by
  intro fuel
  induction fuel with
  | zero => intro fr ex po pu out _ _ _ _ h; exact Option.noConfusion h
  | succ fuel ih =>
    intro fr ex po pu out h1 h2 h3 h4 h
    rw [ucsLoop] at h
    split at h
    · cases h
      exact ⟨(List.nodup_append.mp h1).1, h2⟩
    · rename_i a node fr' hpop
      have hperm := popMin_perm fr (a, node) fr' hpop
      have hmapperm : (frontierStates fr).Perm
          (node.state :: frontierStates fr') := by
        have := hperm.map (fun e => e.2.state)
        simpa [frontierStates] using this
      have hns : node.state ∈ ex :=
        h3 node.state (hmapperm.mem_iff.mpr (List.mem_cons_self _ _))
      have h1' : ((po ++ [node.state]) ++ frontierStates fr').Nodup := by
        have hp : (po ++ frontierStates fr).Perm
            ((po ++ [node.state]) ++ frontierStates fr') := by
          have h' := hmapperm.append_left po
          simpa [List.append_assoc] using h'
        exact hp.nodup_iff.mp h1
      have h3' : ∀ x ∈ frontierStates fr', x ∈ ex := fun x hx =>
        h3 x (hmapperm.mem_iff.mpr (List.mem_cons_of_mem _ hx))
      have h4' : ∀ x ∈ po ++ [node.state], x ∈ ex := by
        intro x hx
        rcases List.mem_append.mp hx with hx | hx
        · exact h4 x hx
        · rw [List.mem_singleton] at hx
          exact hx ▸ hns
      have hexp := ucsExpand_inv g node (po ++ [node.state])
        ((g.get_neighbours node.state).map Prod.snd) fr' ex pu h1' h2 h3' h4'
      split at h
      · rename_i n ex' pu' hexpand
        rw [hexpand] at hexp
        cases h
        exact ⟨(List.nodup_append.mp h1').1, hexp⟩
      · rename_i fr'' ex' pu' hexpand
        rw [hexpand] at hexp
        exact ih fr'' ex' (po ++ [node.state]) pu' out hexp.1 hexp.2.1
          hexp.2.2.1 hexp.2.2.2 h

/-! Claim theorems for the uniform-cost search. -/

/-- C1 (code evaluated at the failing input): on the chain grid `exG1` the
two loop pushes are logged as `(priority, cost of pushed node, state)` =
`(0, 1, 1)` and `(1, 2, 2)`: each successor is pushed with its parent's
accumulated cost as priority, which differs from the successor's own
accumulated cost (0 ≠ 1). -/
theorem ucs_c1_push_priority :
    (UniformCostSearch.search exG1 10).map (fun o => o.pushes) =
      some [(0, 1, 1), (1, 2, 2)] ∧ (0 : ℤ) ≠ (1 : ℤ) := by
  refine ⟨by decide, by decide⟩

/-- C7 (confirmed): for every grid, a terminating `UniformCostSearch.search`
run never expands the same state twice (the log of popped states is
duplicate-free) and its explored list — to which states are appended exactly
when first generated — is duplicate-free, so its size equals the number of
distinct states generated during the run. -/
theorem ucs_c7_no_revisits {S : Type} [DecidableEq S] (g : Grid S)
    (fuel : ℕ) (out : UCSOutcome S)
    (h : UniformCostSearch.search g fuel = some out) :
    out.pops.Nodup ∧ out.explored.Nodup := by
  unfold UniformCostSearch.search at h
  by_cases hse : g.start = g.«end»
  · rw [if_pos hse] at h
    cases h
    exact ⟨List.nodup_nil, List.nodup_singleton _⟩
  · rw [if_neg hse] at h
    refine ucsLoop_inv g fuel _ _ _ _ out ?_ ?_ ?_ ?_ h
    · simp [frontierStates, Node.state]
    · exact List.nodup_singleton _
    · intro s hs
      simp [frontierStates, Node.state] at hs
      simp [hs]
    · intro s hs
      simp at hs

/-- Witness for C7 on the one-state grid `exG0`, whose search terminates at
once: both logs of the outcome are duplicate-free. -/
theorem ucs_c7_witness :
    (UCSOutcome.mk (SearchResult.solution (Node.mk 0 0 none none)) [0] [] [] :
      UCSOutcome ℕ).pops.Nodup ∧
    (UCSOutcome.mk (SearchResult.solution (Node.mk 0 0 none none)) [0] [] [] :
      UCSOutcome ℕ).explored.Nodup :=
  ucs_c7_no_revisits exG0 5 _ rfl

end Prog3
